import Mathlib

set_option maxRecDepth 4000

/-!
Shallow embedding of the data-plane codec core of the Diffusion C client:
the CBOR parser and generator declared in `src/include/cbor.h`, the binary
delta engine declared in `src/include/delta.h`, and the per-session
update-value cache declared in `src/include/delta.h`.

The repository ships only the public headers; the `.c` implementation files
are not under `src/`.  Where a definition below models behaviour that is not
visible in a header, its doc comment starts with `Modelled from the spec:`
and the definition follows the specification's words (and the header's
contract comments) as closely as possible.

Byte buffers (the C `BUF_T`) are modelled as `List Nat`, each element one
byte value.  Machine integers are modelled as `Nat`/`Int`; a `uint64_t`
argument is a `Nat` that callers keep below `2^64`, an `int64_t` is an `Int`.
-/

/-- CBOR major types, mirroring `CBOR_TYPE_T` in `cbor.h`. -/
inductive CBOR_TYPE_T where
  | CBOR_TYPE_UNSIGNED_INT
  | CBOR_TYPE_NEGATIVE_INT
  | CBOR_TYPE_BYTE_STRING
  | CBOR_TYPE_TEXT_STRING
  | CBOR_TYPE_ARRAY
  | CBOR_TYPE_MAP
  | CBOR_TYPE_SEMANTIC_TAG
  | CBOR_TYPE_FLOAT
  deriving DecidableEq, Repr

/-- Mirrors `CBOR_VALUE_UNION_T` in `cbor.h`.  A C union is modelled as an
inductive: exactly one arm is populated for a given token.  The `as_float`
arm carries the IEEE-754 binary64 bit pattern of the decoded double (the
codec is specified on bit-exact round-trips, so the bit pattern is the
faithful representation).  `unset` models the union arms that a token kind
leaves untouched (simple values and break markers). -/
inductive CBOR_VALUE_UNION_T where
  | as_uint (n : Nat)
  | as_negint (i : Int)
  | as_bytes (bs : List Nat)
  | as_semantic_tag (n : Nat)
  | as_float (bits : Nat)
  | unset
  deriving DecidableEq, Repr

/-- Mirrors `CBOR_VAL_T` in `cbor.h`: one decoded CBOR token. -/
structure CBOR_VAL_T where
  initial_byte : Nat
  type : CBOR_TYPE_T
  value : CBOR_VALUE_UNION_T
  size : Int
  deriving DecidableEq, Repr

/-- Mirrors `CBOR_PARSER_T` in `cbor.h`: the C struct holds `data`, `len`,
a cursor pointer `ptr` and an `in_indefinite_block` flag.  The pointer is
modelled as the offset `pos` from the start of the (immutable) data. -/
structure CBOR_PARSER_T where
  data : List Nat
  pos : Nat
  in_indefinite_block : Bool
  deriving DecidableEq, Repr

/-- Mirrors `CBOR_GENERATOR_T` in `cbor.h`: a growable byte buffer and its
length (the length is `data.length` here). -/
structure CBOR_GENERATOR_T where
  data : List Nat
  deriving DecidableEq, Repr

/-- Big-endian bytes of `v`, exactly `k` bytes wide (truncating above). -/
def beBytes : Nat → Nat → List Nat
  | 0, _ => []
  | k + 1, v => beBytes k (v / 256) ++ [v % 256]

/-- Big-endian value of a byte list. -/
def beVal (bs : List Nat) : Nat :=
  bs.foldl (fun a b => a * 256 + b) 0

/-- Modelled from the spec: the canonical-encoding rule of `cbor.c` (not
under `src/`).  Width in extra bytes of the smallest CBOR header form
(immediate 0-23, 1, 2, 4 or 8 following bytes) that can represent `n`. -/
def headerWidth (n : Nat) : Nat :=
  if n < 24 then 0
  else if n < 256 then 1
  else if n < 65536 then 2
  else if n < 4294967296 then 4
  else 8

/-- Additional-information bits of the canonical header for magnitude `n`
(the immediate value itself, or 24/25/26/27 for the 1/2/4/8-byte forms). -/
def aiOfArg (n : Nat) : Nat :=
  if n < 24 then n
  else if n < 256 then 24
  else if n < 65536 then 25
  else if n < 4294967296 then 26
  else 27

/-- Modelled from the spec: the canonical CBOR header emitted by `cbor.c`
(not under `src/`) for major type `m` and magnitude `n`: the initial byte
(major type in the top three bits, additional info below) followed by the
magnitude in the smallest big-endian width that represents it. -/
def cborTypeHeader (m n : Nat) : List Nat :=
  (m * 32 + aiOfArg n) :: beBytes (headerWidth n) n

/-- Mirrors `cbor_generator_create` in `cbor.h`: a fresh, empty generator. -/
def cbor_generator_create : CBOR_GENERATOR_T := ⟨[]⟩

/-- Modelled from the spec: `cbor_write_uint` of `cbor.c` (not under
`src/`) appends the canonical (smallest possible) encoding of an unsigned
integer, major type 0.  Returns the C status int and the updated generator. -/
def cbor_write_uint (g : CBOR_GENERATOR_T) (val : Nat) : Int × CBOR_GENERATOR_T :=
  (0, ⟨g.data ++ cborTypeHeader 0 val⟩)

/-- Modelled from the spec: `cbor_write_negint` of `cbor.c` (not under
`src/`) appends the canonical encoding of a negative integer, major type 1,
magnitude `-1 - val` per CBOR's convention.  A non-negative argument is not
a negative integer and is rejected. -/
def cbor_write_negint (g : CBOR_GENERATOR_T) (val : Int) : Int × CBOR_GENERATOR_T :=
  if val < 0 then (0, ⟨g.data ++ cborTypeHeader 1 (-(val + 1)).toNat⟩)
  else (-1, g)

/-- Modelled from the spec: `cbor_write_byte_string` of `cbor.c` (not under
`src/`): for `len = -1` appends the indefinite-length byte-string marker
(0x5f); for `len ≥ 0` appends the canonical length header, major type 2,
followed by `len` payload bytes; other negative lengths are an error. -/
def cbor_write_byte_string (g : CBOR_GENERATOR_T) (bytes : List Nat) (len : Int) :
    Int × CBOR_GENERATOR_T :=
  if len = -1 then (0, ⟨g.data ++ [95]⟩)
  else if len < 0 then (-1, g)
  else (0, ⟨g.data ++ cborTypeHeader 2 len.toNat ++ bytes.take len.toNat⟩)

/-- Modelled from the spec: `cbor_write_text_string` of `cbor.c` (not under
`src/`): as the byte-string writer, with major type 3 and indefinite marker
0x7f. -/
def cbor_write_text_string (g : CBOR_GENERATOR_T) (bytes : List Nat) (len : Int) :
    Int × CBOR_GENERATOR_T :=
  if len = -1 then (0, ⟨g.data ++ [127]⟩)
  else if len < 0 then (-1, g)
  else (0, ⟨g.data ++ cborTypeHeader 3 len.toNat ++ bytes.take len.toNat⟩)

/-- Modelled from the spec: `cbor_write_array` of `cbor.c` (not under
`src/`): for `size = -1` appends the indefinite-length array marker (0x9f);
for `size ≥ 0` appends the canonical count header, major type 4. -/
def cbor_write_array (g : CBOR_GENERATOR_T) (size : Int) : Int × CBOR_GENERATOR_T :=
  if size = -1 then (0, ⟨g.data ++ [159]⟩)
  else if size < 0 then (-1, g)
  else (0, ⟨g.data ++ cborTypeHeader 4 size.toNat⟩)

/-- Modelled from the spec: `cbor_write_map` of `cbor.c` (not under `src/`):
for `size = -1` appends the indefinite-length map marker (0xbf); for
`size ≥ 0` appends the canonical pair-count header, major type 5. -/
def cbor_write_map (g : CBOR_GENERATOR_T) (size : Int) : Int × CBOR_GENERATOR_T :=
  if size = -1 then (0, ⟨g.data ++ [191]⟩)
  else if size < 0 then (-1, g)
  else (0, ⟨g.data ++ cborTypeHeader 5 size.toNat⟩)

/-- IEEE-754 widening of a binary16 bit pattern to a binary64 bit pattern. -/
def widen16to64 (h : Nat) : Nat :=
  let s := h / 32768 % 2
  let e := h / 1024 % 32
  let m := h % 1024
  if e = 31 then s * 2 ^ 63 + 2047 * 2 ^ 52 + m * 2 ^ 42
  else if e = 0 then
    if m = 0 then s * 2 ^ 63
    else
      let k := Nat.log2 m
      s * 2 ^ 63 + (k + 999) * 2 ^ 52 + (m - 2 ^ k) * 2 ^ (52 - k)
  else s * 2 ^ 63 + (e + 1008) * 2 ^ 52 + m * 2 ^ 42

/-- IEEE-754 widening of a binary32 bit pattern to a binary64 bit pattern. -/
def widen32to64 (f : Nat) : Nat :=
  let s := f / 2147483648 % 2
  let e := f / 8388608 % 256
  let m := f % 8388608
  if e = 255 then s * 2 ^ 63 + 2047 * 2 ^ 52 + m * 2 ^ 29
  else if e = 0 then
    if m = 0 then s * 2 ^ 63
    else
      let k := Nat.log2 m
      s * 2 ^ 63 + (k + 874) * 2 ^ 52 + (m - 2 ^ k) * 2 ^ (52 - k)
  else s * 2 ^ 63 + (e + 896) * 2 ^ 52 + m * 2 ^ 29

/-- Bounded search for the least `i < start + fuel`, counting up from
`start`, with `widen i = b`. -/
def firstInvAux (widen : Nat → Nat) (b : Nat) : Nat → Nat → Option Nat
  | _, 0 => none
  | i, fuel + 1 => if widen i = b then some i else firstInvAux widen b (i + 1) fuel

/-- Least `i < bound` with `widen i = b`, if any. -/
def firstInv (widen : Nat → Nat) (bound b : Nat) : Option Nat :=
  firstInvAux widen b 0 bound

/-- Modelled from the spec: `cbor_write_float` of `cbor.c` (not under
`src/`) encodes a double into the smallest IEEE width (16/32/64 bit) whose
widening reproduces the exact bit pattern, falling back to binary64.  The
argument is the binary64 bit pattern of the C `double`. -/
def cbor_write_float (g : CBOR_GENERATOR_T) (bits : Nat) : Int × CBOR_GENERATOR_T :=
  match firstInv widen16to64 65536 bits with
  | some h => (0, ⟨g.data ++ 249 :: beBytes 2 h⟩)
  | none =>
    match firstInv widen32to64 4294967296 bits with
    | some f => (0, ⟨g.data ++ 250 :: beBytes 4 f⟩)
    | none => (0, ⟨g.data ++ 251 :: beBytes 8 bits⟩)

/-- Modelled from the spec: `cbor_write_break` of `cbor.c` (not under
`src/`) appends the break byte 0xff. -/
def cbor_write_break (g : CBOR_GENERATOR_T) : Int × CBOR_GENERATOR_T :=
  (0, ⟨g.data ++ [255]⟩)

/-- Modelled from the spec: `cbor_write_false` of `cbor.c` (not under
`src/`) appends the byte `CBOR_VAL_FALSE` = 0xf4. -/
def cbor_write_false (g : CBOR_GENERATOR_T) : Int × CBOR_GENERATOR_T :=
  (0, ⟨g.data ++ [244]⟩)

/-- Modelled from the spec: `cbor_write_true` of `cbor.c` (not under
`src/`) appends the byte `CBOR_VAL_TRUE` = 0xf5. -/
def cbor_write_true (g : CBOR_GENERATOR_T) : Int × CBOR_GENERATOR_T :=
  (0, ⟨g.data ++ [245]⟩)

/-- Modelled from the spec: `cbor_write_null` of `cbor.c` (not under
`src/`) appends the byte `CBOR_VAL_NULL` = 0xf6. -/
def cbor_write_null (g : CBOR_GENERATOR_T) : Int × CBOR_GENERATOR_T :=
  (0, ⟨g.data ++ [246]⟩)

/-- Modelled from the spec: `cbor_write_undefined` of `cbor.c` (not under
`src/`) appends the byte `CBOR_VAL_UNDEFINED` = 0xf7. -/
def cbor_write_undefined (g : CBOR_GENERATOR_T) : Int × CBOR_GENERATOR_T :=
  (0, ⟨g.data ++ [247]⟩)

/-- Helper mapping a major-type number to `CBOR_TYPE_T`. -/
def majorToType (mt : Nat) : CBOR_TYPE_T :=
  if mt = 0 then .CBOR_TYPE_UNSIGNED_INT
  else if mt = 1 then .CBOR_TYPE_NEGATIVE_INT
  else if mt = 2 then .CBOR_TYPE_BYTE_STRING
  else if mt = 3 then .CBOR_TYPE_TEXT_STRING
  else if mt = 4 then .CBOR_TYPE_ARRAY
  else if mt = 5 then .CBOR_TYPE_MAP
  else if mt = 6 then .CBOR_TYPE_SEMANTIC_TAG
  else .CBOR_TYPE_FLOAT

/-- The `k` bytes of `data` starting at `pos`, or `none` if fewer remain
(truncated input). -/
def sliceAt (data : List Nat) (pos k : Nat) : Option (List Nat) :=
  if pos + k ≤ data.length then some ((data.drop pos).take k) else none

/-- Modelled from the spec: the header-argument reader shared by the jump
routines of `cbor.c` (not under `src/`).  Given the additional-information
bits `ai` of an initial byte, reads the argument (immediate value, or the
next 1/2/4/8 bytes big-endian) starting at `pos`, returning the value and
the number of extra bytes consumed; `none` on a reserved form (28-30) or
truncated input. -/
def readArg (data : List Nat) (pos ai : Nat) : Option (Nat × Nat) :=
  if ai < 24 then some (ai, 0)
  else if ai = 24 then (sliceAt data pos 1).map (fun bs => (beVal bs, 1))
  else if ai = 25 then (sliceAt data pos 2).map (fun bs => (beVal bs, 2))
  else if ai = 26 then (sliceAt data pos 4).map (fun bs => (beVal bs, 4))
  else if ai = 27 then (sliceAt data pos 8).map (fun bs => (beVal bs, 8))
  else none

/-- Modelled from the spec: the per-initial-byte decode step of `cbor.c`
(not under `src/`; the header declares one jump routine per initial-byte
class).  Decodes the single token starting at `pos`, returning the token,
the total number of bytes it consumed, and the updated
`in_indefinite_block` flag; `none` on malformed or truncated input
(reserved forms, unimplemented simple values, a break outside an
indefinite-length block, or too few bytes). -/
def decodeTokenAt (data : List Nat) (pos : Nat) (inIndef : Bool) :
    Option (CBOR_VAL_T × Nat × Bool) :=
  let ib := data.getD pos 0
  let mt := ib / 32
  let ai := ib % 32
  if ai = 31 then
    if mt = 2 ∨ mt = 3 ∨ mt = 4 ∨ mt = 5 then
      some ({ initial_byte := ib, type := majorToType mt, value := .unset, size := -1 }, 1, true)
    else if mt = 7 then
      if inIndef then
        some ({ initial_byte := 255, type := .CBOR_TYPE_FLOAT, value := .unset, size := 0 }, 1, false)
      else none
    else none
  else
    match readArg data (pos + 1) ai with
    | none => none
    | some (n, w) =>
      if mt = 0 then
        some ({ initial_byte := ib, type := .CBOR_TYPE_UNSIGNED_INT,
                value := .as_uint n, size := 0 }, 1 + w, inIndef)
      else if mt = 1 then
        some ({ initial_byte := ib, type := .CBOR_TYPE_NEGATIVE_INT,
                value := .as_negint (-1 - (n : Int)), size := 0 }, 1 + w, inIndef)
      else if mt = 2 ∨ mt = 3 then
        match sliceAt data (pos + 1 + w) n with
        | none => none
        | some payload =>
          some ({ initial_byte := ib, type := majorToType mt,
                  value := .as_bytes payload, size := (n : Int) }, 1 + w + n, inIndef)
      else if mt = 4 ∨ mt = 5 then
        some ({ initial_byte := ib, type := majorToType mt,
                value := .unset, size := (n : Int) }, 1 + w, inIndef)
      else if mt = 6 then
        some ({ initial_byte := ib, type := .CBOR_TYPE_SEMANTIC_TAG,
                value := .as_semantic_tag n, size := 0 }, 1 + w, inIndef)
      else
        if ai ≤ 23 then
          if ib = 244 ∨ ib = 245 ∨ ib = 246 ∨ ib = 247 then
            some ({ initial_byte := ib, type := .CBOR_TYPE_FLOAT,
                    value := .unset, size := 0 }, 1, inIndef)
          else none
        else if ai = 25 then
          some ({ initial_byte := ib, type := .CBOR_TYPE_FLOAT,
                  value := .as_float (widen16to64 n), size := 0 }, 1 + w, inIndef)
        else if ai = 26 then
          some ({ initial_byte := ib, type := .CBOR_TYPE_FLOAT,
                  value := .as_float (widen32to64 n), size := 0 }, 1 + w, inIndef)
        else if ai = 27 then
          some ({ initial_byte := ib, type := .CBOR_TYPE_FLOAT,
                  value := .as_float n, size := 0 }, 1 + w, inIndef)
        else none

/-- Result of one `cbor_next_val` call.  The C function returns a
`CBOR_VAL_T *` or `NULL`; the specification distinguishes the `NULL` for
legitimate end-of-input from the `NULL`-with-error for malformed or
truncated input, so the model keeps the two apart. -/
inductive CBOR_NEXT_RESULT where
  | val (v : CBOR_VAL_T)
  | endOfInput
  | error
  deriving DecidableEq, Repr

/-- Mirrors `cbor_parser_create` in `cbor.h`: a parser bound to `data`
with the cursor at the start, outside any indefinite-length block. -/
def cbor_parser_create (data : List Nat) : CBOR_PARSER_T :=
  { data := data, pos := 0, in_indefinite_block := false }

/-- Mirrors `cbor_parser_available_bytes` in `cbor.h`: the number of
unread bytes. -/
def cbor_parser_available_bytes (p : CBOR_PARSER_T) : Nat :=
  p.data.length - p.pos

/-- Modelled from the spec: `cbor_next_val` of `cbor.c` (not under
`src/`).  If the buffer is exhausted, reports end-of-input; otherwise
dispatches on the leading unread byte, and on success returns the decoded
token with the cursor advanced past exactly that token's encoding. -/
def cbor_next_val (p : CBOR_PARSER_T) : CBOR_NEXT_RESULT × CBOR_PARSER_T :=
  if p.pos < p.data.length then
    match decodeTokenAt p.data p.pos p.in_indefinite_block with
    | some (v, k, fl) => (.val v, { p with pos := p.pos + k, in_indefinite_block := fl })
    | none => (.error, p)
  else (.endOfInput, p)

theorem beBytes_length (k v : Nat) : (beBytes k v).length = k := by
  induction k generalizing v with
  | zero => rfl
  | succ k ih => simp [beBytes, ih]

theorem beVal_append_singleton (xs : List Nat) (b : Nat) :
    beVal (xs ++ [b]) = beVal xs * 256 + b := by
  simp [beVal]

theorem beVal_beBytes (k v : Nat) (h : v < 256 ^ k) : beVal (beBytes k v) = v := by
  induction k generalizing v with
  | zero =>
    simp [beBytes, beVal]
    omega
  | succ k ih =>
    rw [beBytes, beVal_append_singleton, ih (v / 256) (by
      have : 256 ^ (k + 1) = 256 ^ k * 256 := by ring
      omega)]
    omega

theorem aiOfArg_le (n : Nat) : aiOfArg n ≤ 27 := by
  unfold aiOfArg
  split <;> [omega; (split <;> [omega; (split <;> [omega; (split <;> omega)])])]

theorem sliceAt_cons_append (x : Nat) (l rest : List Nat) :
    sliceAt (x :: (l ++ rest)) 1 l.length = some l := by
  unfold sliceAt
  rw [if_pos (by simp; omega)]
  simp [List.take_left]

theorem sliceAt_append_append (l1 l2 l3 : List Nat) :
    sliceAt (l1 ++ (l2 ++ l3)) l1.length l2.length = some l2 := by
  unfold sliceAt
  rw [if_pos (by simp)]
  rw [List.drop_left, List.take_left]

theorem readArg_header (m n : Nat) (rest : List Nat) (hn : n < 2 ^ 64) :
    readArg (cborTypeHeader m n ++ rest) 1 (aiOfArg n) = some (n, headerWidth n) := by
  have hcons : cborTypeHeader m n ++ rest
      = (m * 32 + aiOfArg n) :: (beBytes (headerWidth n) n ++ rest) := by
    simp [cborTypeHeader]
  by_cases h24 : n < 24
  · simp [readArg, aiOfArg, headerWidth, h24]
  · by_cases h8 : n < 256
    · have hai : aiOfArg n = 24 := by simp [aiOfArg, h24, h8]
      have hw : headerWidth n = 1 := by simp [headerWidth, h24, h8]
      rw [hai, hcons, hw]
      have hs := sliceAt_cons_append (m * 32 + aiOfArg n) (beBytes 1 n) rest
      rw [beBytes_length] at hs
      simp [readArg, hs, beVal_beBytes 1 n (by norm_num; omega)]
    · by_cases h16 : n < 65536
      · have hai : aiOfArg n = 25 := by simp [aiOfArg, h24, h8, h16]
        have hw : headerWidth n = 2 := by simp [headerWidth, h24, h8, h16]
        rw [hai, hcons, hw]
        have hs := sliceAt_cons_append (m * 32 + aiOfArg n) (beBytes 2 n) rest
        rw [beBytes_length] at hs
        simp [readArg, hs, beVal_beBytes 2 n (by norm_num; omega)]
      · by_cases h32 : n < 4294967296
        · have hai : aiOfArg n = 26 := by simp [aiOfArg, h24, h8, h16, h32]
          have hw : headerWidth n = 4 := by simp [headerWidth, h24, h8, h16, h32]
          rw [hai, hcons, hw]
          have hs := sliceAt_cons_append (m * 32 + aiOfArg n) (beBytes 4 n) rest
          rw [beBytes_length] at hs
          simp [readArg, hs, beVal_beBytes 4 n (by norm_num; omega)]
        · have hai : aiOfArg n = 27 := by simp [aiOfArg, h24, h8, h16, h32]
          have hw : headerWidth n = 8 := by simp [headerWidth, h24, h8, h16, h32]
          rw [hai, hcons, hw]
          have hs := sliceAt_cons_append (m * 32 + aiOfArg n) (beBytes 8 n) rest
          rw [beBytes_length] at hs
          simp [readArg, hs, beVal_beBytes 8 n (by norm_num; omega)]

theorem cborTypeHeader_length (m n : Nat) :
    (cborTypeHeader m n).length = 1 + headerWidth n := by
  simp [cborTypeHeader, beBytes_length]
  omega

theorem decodeTokenAt_uint (n : Nat) (rest : List Nat) (ind : Bool) (hn : n < 2 ^ 64) :
    decodeTokenAt (cborTypeHeader 0 n ++ rest) 0 ind =
      some ({ initial_byte := aiOfArg n, type := .CBOR_TYPE_UNSIGNED_INT,
              value := .as_uint n, size := 0 }, 1 + headerWidth n, ind) := by
  have hai := aiOfArg_le n
  have hra := readArg_header 0 n rest hn
  have hgd : (cborTypeHeader 0 n ++ rest).getD 0 0 = aiOfArg n := by
    simp [cborTypeHeader]
  simp only [decodeTokenAt, hgd]
  rw [show aiOfArg n % 32 = aiOfArg n from by omega,
      show aiOfArg n / 32 = 0 from by omega]
  rw [if_neg (by omega : ¬ aiOfArg n = 31)]
  simp only [Nat.zero_add, hra]
  simp

theorem decodeTokenAt_negint (n : Nat) (rest : List Nat) (ind : Bool) (hn : n < 2 ^ 64) :
    decodeTokenAt (cborTypeHeader 1 n ++ rest) 0 ind =
      some ({ initial_byte := 32 + aiOfArg n, type := .CBOR_TYPE_NEGATIVE_INT,
              value := .as_negint (-1 - (n : Int)), size := 0 }, 1 + headerWidth n, ind) := by
  have hai := aiOfArg_le n
  have hra := readArg_header 1 n rest hn
  have hgd : (cborTypeHeader 1 n ++ rest).getD 0 0 = 32 + aiOfArg n := by
    simp [cborTypeHeader]
  simp only [decodeTokenAt, hgd]
  rw [show (32 + aiOfArg n) % 32 = aiOfArg n from by omega,
      show (32 + aiOfArg n) / 32 = 1 from by omega]
  rw [if_neg (by omega : ¬ aiOfArg n = 31)]
  have hra' : readArg (cborTypeHeader 1 n ++ rest) (0 + 1) (aiOfArg n)
      = some (n, headerWidth n) := by simpa using hra
  simp only [hra']
  simp

theorem decodeTokenAt_byte_string (pl rest : List Nat) (ind : Bool)
    (hn : pl.length < 2 ^ 64) :
    decodeTokenAt (cborTypeHeader 2 pl.length ++ (pl ++ rest)) 0 ind =
      some ({ initial_byte := 64 + aiOfArg pl.length, type := .CBOR_TYPE_BYTE_STRING,
              value := .as_bytes pl, size := (pl.length : Int) },
            1 + headerWidth pl.length + pl.length, ind) := by
  have hai := aiOfArg_le pl.length
  have hra := readArg_header 2 pl.length (pl ++ rest) hn
  have hgd : (cborTypeHeader 2 pl.length ++ (pl ++ rest)).getD 0 0
      = 64 + aiOfArg pl.length := by
    simp [cborTypeHeader]
  have hsl : sliceAt (cborTypeHeader 2 pl.length ++ (pl ++ rest))
      (0 + 1 + headerWidth pl.length) pl.length = some pl := by
    have := sliceAt_append_append (cborTypeHeader 2 pl.length) pl rest
    rw [cborTypeHeader_length] at this
    simpa using this
  simp only [decodeTokenAt, hgd]
  rw [show (64 + aiOfArg pl.length) % 32 = aiOfArg pl.length from by omega,
      show (64 + aiOfArg pl.length) / 32 = 2 from by omega]
  rw [if_neg (by omega : ¬ aiOfArg pl.length = 31)]
  have hra' : readArg (cborTypeHeader 2 pl.length ++ (pl ++ rest)) (0 + 1)
      (aiOfArg pl.length) = some (pl.length, headerWidth pl.length) := by simpa using hra
  simp only [hra', hsl]
  simp [majorToType]

theorem decodeTokenAt_text_string (pl rest : List Nat) (ind : Bool)
    (hn : pl.length < 2 ^ 64) :
    decodeTokenAt (cborTypeHeader 3 pl.length ++ (pl ++ rest)) 0 ind =
      some ({ initial_byte := 96 + aiOfArg pl.length, type := .CBOR_TYPE_TEXT_STRING,
              value := .as_bytes pl, size := (pl.length : Int) },
            1 + headerWidth pl.length + pl.length, ind) := by
  have hai := aiOfArg_le pl.length
  have hra := readArg_header 3 pl.length (pl ++ rest) hn
  have hgd : (cborTypeHeader 3 pl.length ++ (pl ++ rest)).getD 0 0
      = 96 + aiOfArg pl.length := by
    simp [cborTypeHeader]
  have hsl : sliceAt (cborTypeHeader 3 pl.length ++ (pl ++ rest))
      (0 + 1 + headerWidth pl.length) pl.length = some pl := by
    have := sliceAt_append_append (cborTypeHeader 3 pl.length) pl rest
    rw [cborTypeHeader_length] at this
    simpa using this
  simp only [decodeTokenAt, hgd]
  rw [show (96 + aiOfArg pl.length) % 32 = aiOfArg pl.length from by omega,
      show (96 + aiOfArg pl.length) / 32 = 3 from by omega]
  rw [if_neg (by omega : ¬ aiOfArg pl.length = 31)]
  have hra' : readArg (cborTypeHeader 3 pl.length ++ (pl ++ rest)) (0 + 1)
      (aiOfArg pl.length) = some (pl.length, headerWidth pl.length) := by simpa using hra
  simp only [hra', hsl]
  simp [majorToType]

theorem decodeTokenAt_array (n : Nat) (rest : List Nat) (ind : Bool) (hn : n < 2 ^ 64) :
    decodeTokenAt (cborTypeHeader 4 n ++ rest) 0 ind =
      some ({ initial_byte := 128 + aiOfArg n, type := .CBOR_TYPE_ARRAY,
              value := .unset, size := (n : Int) }, 1 + headerWidth n, ind) := by
  have hai := aiOfArg_le n
  have hra := readArg_header 4 n rest hn
  have hgd : (cborTypeHeader 4 n ++ rest).getD 0 0 = 128 + aiOfArg n := by
    simp [cborTypeHeader]
  simp only [decodeTokenAt, hgd]
  rw [show (128 + aiOfArg n) % 32 = aiOfArg n from by omega,
      show (128 + aiOfArg n) / 32 = 4 from by omega]
  rw [if_neg (by omega : ¬ aiOfArg n = 31)]
  have hra' : readArg (cborTypeHeader 4 n ++ rest) (0 + 1) (aiOfArg n)
      = some (n, headerWidth n) := by simpa using hra
  simp only [hra']
  simp [majorToType]

theorem decodeTokenAt_map (n : Nat) (rest : List Nat) (ind : Bool) (hn : n < 2 ^ 64) :
    decodeTokenAt (cborTypeHeader 5 n ++ rest) 0 ind =
      some ({ initial_byte := 160 + aiOfArg n, type := .CBOR_TYPE_MAP,
              value := .unset, size := (n : Int) }, 1 + headerWidth n, ind) := by
  have hai := aiOfArg_le n
  have hra := readArg_header 5 n rest hn
  have hgd : (cborTypeHeader 5 n ++ rest).getD 0 0 = 160 + aiOfArg n := by
    simp [cborTypeHeader]
  simp only [decodeTokenAt, hgd]
  rw [show (160 + aiOfArg n) % 32 = aiOfArg n from by omega,
      show (160 + aiOfArg n) / 32 = 5 from by omega]
  rw [if_neg (by omega : ¬ aiOfArg n = 31)]
  have hra' : readArg (cborTypeHeader 5 n ++ rest) (0 + 1) (aiOfArg n)
      = some (n, headerWidth n) := by simpa using hra
  simp only [hra']
  simp [majorToType]

theorem decodeTokenAt_semantic_tag (n : Nat) (rest : List Nat) (ind : Bool) (hn : n < 2 ^ 64) :
    decodeTokenAt (cborTypeHeader 6 n ++ rest) 0 ind =
      some ({ initial_byte := 192 + aiOfArg n, type := .CBOR_TYPE_SEMANTIC_TAG,
              value := .as_semantic_tag n, size := 0 }, 1 + headerWidth n, ind) := by
  have hai := aiOfArg_le n
  have hra := readArg_header 6 n rest hn
  have hgd : (cborTypeHeader 6 n ++ rest).getD 0 0 = 192 + aiOfArg n := by
    simp [cborTypeHeader]
  simp only [decodeTokenAt, hgd]
  rw [show (192 + aiOfArg n) % 32 = aiOfArg n from by omega,
      show (192 + aiOfArg n) / 32 = 6 from by omega]
  rw [if_neg (by omega : ¬ aiOfArg n = 31)]
  have hra' : readArg (cborTypeHeader 6 n ++ rest) (0 + 1) (aiOfArg n)
      = some (n, headerWidth n) := by simpa using hra
  simp only [hra']
  simp

theorem firstInvAux_spec (widen : Nat → Nat) (b : Nat) :
    ∀ fuel i h, firstInvAux widen b i fuel = some h → widen h = b ∧ h < i + fuel := by
  intro fuel
  induction fuel with
  | zero => intro i h hx; simp [firstInvAux] at hx
  | succ fuel ih =>
    intro i h hx
    unfold firstInvAux at hx
    split at hx
    · cases hx
      constructor
      · assumption
      · omega
    · have := ih (i + 1) h hx
      exact ⟨this.1, by omega⟩

theorem firstInv_spec (widen : Nat → Nat) (bound b h : Nat)
    (hx : firstInv widen bound b = some h) : widen h = b ∧ h < bound := by
  have := firstInvAux_spec widen b bound 0 h hx
  exact ⟨this.1, by omega⟩

theorem decodeTokenAt_float16 (h : Nat) (rest : List Nat) (ind : Bool)
    (hh : h < 65536) :
    decodeTokenAt (249 :: (beBytes 2 h ++ rest)) 0 ind =
      some ({ initial_byte := 249, type := .CBOR_TYPE_FLOAT,
              value := .as_float (widen16to64 h), size := 0 }, 3, ind) := by
  have hs := sliceAt_cons_append 249 (beBytes 2 h) rest
  rw [beBytes_length] at hs
  have hb := beVal_beBytes 2 h (by norm_num; omega)
  simp [decodeTokenAt, readArg, hs, hb]

theorem decodeTokenAt_float32 (f : Nat) (rest : List Nat) (ind : Bool)
    (hf : f < 4294967296) :
    decodeTokenAt (250 :: (beBytes 4 f ++ rest)) 0 ind =
      some ({ initial_byte := 250, type := .CBOR_TYPE_FLOAT,
              value := .as_float (widen32to64 f), size := 0 }, 5, ind) := by
  have hs := sliceAt_cons_append 250 (beBytes 4 f) rest
  rw [beBytes_length] at hs
  have hb := beVal_beBytes 4 f (by norm_num; omega)
  simp [decodeTokenAt, readArg, hs, hb]

theorem decodeTokenAt_float64 (b : Nat) (rest : List Nat) (ind : Bool)
    (hb64 : b < 18446744073709551616) :
    decodeTokenAt (251 :: (beBytes 8 b ++ rest)) 0 ind =
      some ({ initial_byte := 251, type := .CBOR_TYPE_FLOAT,
              value := .as_float b, size := 0 }, 9, ind) := by
  have hs := sliceAt_cons_append 251 (beBytes 8 b) rest
  rw [beBytes_length] at hs
  have hb := beVal_beBytes 8 b (by norm_num; omega)
  simp [decodeTokenAt, readArg, hs, hb]

theorem decodeTokenAt_false (rest : List Nat) (ind : Bool) :
    decodeTokenAt (244 :: rest) 0 ind =
      some ({ initial_byte := 244, type := .CBOR_TYPE_FLOAT,
              value := .unset, size := 0 }, 1, ind) := by
  simp [decodeTokenAt, readArg]

theorem decodeTokenAt_true (rest : List Nat) (ind : Bool) :
    decodeTokenAt (245 :: rest) 0 ind =
      some ({ initial_byte := 245, type := .CBOR_TYPE_FLOAT,
              value := .unset, size := 0 }, 1, ind) := by
  simp [decodeTokenAt, readArg]

theorem decodeTokenAt_null (rest : List Nat) (ind : Bool) :
    decodeTokenAt (246 :: rest) 0 ind =
      some ({ initial_byte := 246, type := .CBOR_TYPE_FLOAT,
              value := .unset, size := 0 }, 1, ind) := by
  simp [decodeTokenAt, readArg]

theorem decodeTokenAt_undefined (rest : List Nat) (ind : Bool) :
    decodeTokenAt (247 :: rest) 0 ind =
      some ({ initial_byte := 247, type := .CBOR_TYPE_FLOAT,
              value := .unset, size := 0 }, 1, ind) := by
  simp [decodeTokenAt, readArg]

theorem sliceAt_le {data : List Nat} {pos k : Nat} {bs : List Nat}
    (h : sliceAt data pos k = some bs) : pos + k ≤ data.length := by
  unfold sliceAt at h
  split at h
  · assumption
  · simp at h

theorem readArg_bounds {data : List Nat} {pos ai n w : Nat}
    (h : readArg data pos ai = some (n, w)) :
    (w = 0 ∧ ai < 24) ∨ (1 ≤ w ∧ pos + w ≤ data.length) := by
  unfold readArg at h
  split at h
  · cases h
    left
    exact ⟨rfl, by assumption⟩
  · split at h
    · rcases hsl : sliceAt data pos 1 with _ | bs
      · rw [hsl] at h; simp at h
      · rw [hsl] at h
        simp at h
        have := sliceAt_le hsl
        right
        omega
    · split at h
      · rcases hsl : sliceAt data pos 2 with _ | bs
        · rw [hsl] at h; simp at h
        · rw [hsl] at h
          simp at h
          have := sliceAt_le hsl
          right
          omega
      · split at h
        · rcases hsl : sliceAt data pos 4 with _ | bs
          · rw [hsl] at h; simp at h
          · rw [hsl] at h
            simp at h
            have := sliceAt_le hsl
            right
            omega
        · split at h
          · rcases hsl : sliceAt data pos 8 with _ | bs
            · rw [hsl] at h; simp at h
            · rw [hsl] at h
              simp at h
              have := sliceAt_le hsl
              right
              omega
          · simp at h

set_option maxHeartbeats 2000000 in
theorem decodeTokenAt_bounds {data : List Nat} {pos : Nat} {ind : Bool}
    {v : CBOR_VAL_T} {k : Nat} {fl : Bool}
    (hpos : pos < data.length)
    (h : decodeTokenAt data pos ind = some (v, k, fl)) :
    1 ≤ k ∧ pos + k ≤ data.length := by
  simp only [decodeTokenAt] at h
  split at h
  · split at h
    · cases h; omega
    · split at h
      · split at h
        · cases h; omega
        · simp at h
      · simp at h
  · split at h
    · simp at h
    · rename_i n w heq
      have hw := readArg_bounds heq
      split at h
      · cases h
        rcases hw with ⟨h1, _⟩ | ⟨h1, h2⟩ <;> omega
      · split at h
        · cases h
          rcases hw with ⟨h1, _⟩ | ⟨h1, h2⟩ <;> omega
        · split at h
          · split at h
            · simp at h
            · rename_i pl hsl
              cases h
              have h3 := sliceAt_le hsl
              rcases hw with ⟨h1, _⟩ | ⟨h1, h2⟩ <;> omega
          · split at h
            · cases h
              rcases hw with ⟨h1, _⟩ | ⟨h1, h2⟩ <;> omega
            · split at h
              · cases h
                rcases hw with ⟨h1, _⟩ | ⟨h1, h2⟩ <;> omega
              · split at h
                · split at h
                  · cases h; omega
                  · simp at h
                · split at h
                  · cases h
                    rcases hw with ⟨h1, h2⟩ | ⟨h1, h2⟩ <;> omega
                  · split at h
                    · cases h
                      rcases hw with ⟨h1, h2⟩ | ⟨h1, h2⟩ <;> omega
                    · split at h
                      · cases h
                        rcases hw with ⟨h1, h2⟩ | ⟨h1, h2⟩ <;> omega
                      · simp at h

/-- C7: the parser's cursor never regresses and the buffer it reads stays
fixed; every call leaves `cbor_parser_available_bytes` no larger, and every
successful `cbor_next_val` call (one returning a token) advances the cursor
past that token's encoding, strictly decreasing the available bytes. -/
theorem cbor_next_val_cursor_monotone (p : CBOR_PARSER_T) (res : CBOR_NEXT_RESULT)
    (p' : CBOR_PARSER_T) (h : cbor_next_val p = (res, p')) :
    p.pos ≤ p'.pos ∧ p'.data = p.data ∧
    cbor_parser_available_bytes p' ≤ cbor_parser_available_bytes p ∧
    (∀ v, res = CBOR_NEXT_RESULT.val v →
      cbor_parser_available_bytes p' < cbor_parser_available_bytes p) := by
  unfold cbor_next_val at h
  split at h
  · rename_i hpos
    split at h
    · rename_i v0 k fl heq
      cases h
      have hb := decodeTokenAt_bounds hpos heq
      refine ⟨show p.pos ≤ p.pos + k from by omega, rfl,
        show p.data.length - (p.pos + k) ≤ p.data.length - p.pos from by omega,
        fun v _ =>
          show p.data.length - (p.pos + k) < p.data.length - p.pos from by omega⟩
    · cases h
      refine ⟨le_refl _, rfl, le_refl _, ?_⟩
      intro v hv
      simp at hv
  · cases h
    refine ⟨le_refl _, rfl, le_refl _, ?_⟩
    intro v hv
    simp at hv

/-- Witness for C7 at a concrete input: parsing the single byte 0x01
returns a token and strictly decreases the available bytes. -/
theorem cbor_next_val_cursor_monotone_witness :
    cbor_parser_available_bytes ((cbor_next_val (cbor_parser_create [1])).2) <
      cbor_parser_available_bytes (cbor_parser_create [1]) := by
  have h := cbor_next_val_cursor_monotone (cbor_parser_create [1])
    (cbor_next_val (cbor_parser_create [1])).1
    (cbor_next_val (cbor_parser_create [1])).2 rfl
  exact h.2.2.2 { initial_byte := 1, type := .CBOR_TYPE_UNSIGNED_INT,
                  value := .as_uint 1, size := 0 } (by decide)

/-- C6: `cbor_next_val` reports end-of-input exactly when the buffer is
exhausted; a decode failure (malformed or truncated input) is the distinct
`error` signal and occurs only while unread bytes remain, so the parser
never reports a decode failure as a normal end-of-stream or vice versa. -/
theorem cbor_next_val_end_vs_error (p : CBOR_PARSER_T) :
    ((cbor_next_val p).1 = CBOR_NEXT_RESULT.endOfInput ↔
      cbor_parser_available_bytes p = 0) ∧
    ((cbor_next_val p).1 = CBOR_NEXT_RESULT.error →
      0 < cbor_parser_available_bytes p) := by
  unfold cbor_next_val cbor_parser_available_bytes
  split
  · rename_i hpos
    cases hdec : decodeTokenAt p.data p.pos p.in_indefinite_block with
    | none =>
      simp [hdec]
      omega
    | some t =>
      rcases t with ⟨v, ⟨k, fl⟩⟩
      simp [hdec]
      omega
  · rename_i hpos
    simp
    omega

/-- Witness for C6 at a concrete input: the byte 0xff (a break marker
outside any indefinite-length block) is malformed, and the error signal
indeed occurs with bytes remaining, unlike end-of-input. -/
theorem cbor_next_val_end_vs_error_witness :
    0 < cbor_parser_available_bytes (cbor_parser_create [255]) :=
  (cbor_next_val_end_vs_error (cbor_parser_create [255])).2 (by decide)

/-- The second buffer extends the first: the old content is an unchanged
prefix and the length has not decreased. -/
def buffer_extends (before after : List Nat) : Prop :=
  (∃ t, after = before ++ t) ∧ before.length ≤ after.length

/-- C9: every `cbor_write_*` operation only appends to the generator's
buffer: the bytes present before the call are an unchanged prefix of the
buffer afterwards and the length never decreases, for every generator state
and every argument (in particular for every successful write). -/
theorem cbor_write_append_only (g : CBOR_GENERATOR_T) :
    (∀ n, buffer_extends g.data (cbor_write_uint g n).2.data) ∧
    (∀ i, buffer_extends g.data (cbor_write_negint g i).2.data) ∧
    (∀ bs len, buffer_extends g.data (cbor_write_byte_string g bs len).2.data) ∧
    (∀ bs len, buffer_extends g.data (cbor_write_text_string g bs len).2.data) ∧
    (∀ sz, buffer_extends g.data (cbor_write_array g sz).2.data) ∧
    (∀ sz, buffer_extends g.data (cbor_write_map g sz).2.data) ∧
    (∀ b, buffer_extends g.data (cbor_write_float g b).2.data) ∧
    buffer_extends g.data (cbor_write_break g).2.data ∧
    buffer_extends g.data (cbor_write_false g).2.data ∧
    buffer_extends g.data (cbor_write_true g).2.data ∧
    buffer_extends g.data (cbor_write_null g).2.data ∧
    buffer_extends g.data (cbor_write_undefined g).2.data := by
  unfold buffer_extends
  refine ⟨fun n => ?_, fun i => ?_, fun bs len => ?_, fun bs len => ?_,
    fun sz => ?_, fun sz => ?_, fun b => ?_, ?_, ?_, ?_, ?_, ?_⟩
  · exact ⟨⟨_, rfl⟩, by simp [cbor_write_uint]⟩
  · unfold cbor_write_negint
    split
    · exact ⟨⟨_, rfl⟩, by simp⟩
    · exact ⟨⟨[], by simp⟩, by simp⟩
  · unfold cbor_write_byte_string
    split
    · exact ⟨⟨_, rfl⟩, by simp⟩
    · split
      · exact ⟨⟨[], by simp⟩, by simp⟩
      · exact ⟨⟨cborTypeHeader 2 len.toNat ++ bs.take len.toNat, by simp⟩, by simp⟩
  · unfold cbor_write_text_string
    split
    · exact ⟨⟨_, rfl⟩, by simp⟩
    · split
      · exact ⟨⟨[], by simp⟩, by simp⟩
      · exact ⟨⟨cborTypeHeader 3 len.toNat ++ bs.take len.toNat, by simp⟩, by simp⟩
  · unfold cbor_write_array
    split
    · exact ⟨⟨_, rfl⟩, by simp⟩
    · split
      · exact ⟨⟨[], by simp⟩, by simp⟩
      · exact ⟨⟨_, rfl⟩, by simp⟩
  · unfold cbor_write_map
    split
    · exact ⟨⟨_, rfl⟩, by simp⟩
    · split
      · exact ⟨⟨[], by simp⟩, by simp⟩
      · exact ⟨⟨_, rfl⟩, by simp⟩
  · unfold cbor_write_float
    cases h16 : firstInv widen16to64 65536 b with
    | some h => simp only [h16]; exact ⟨⟨_, rfl⟩, by simp⟩
    | none =>
      cases h32 : firstInv widen32to64 4294967296 b with
      | some f => simp only [h16, h32]; exact ⟨⟨_, rfl⟩, by simp⟩
      | none => simp only [h16, h32]; exact ⟨⟨_, rfl⟩, by simp⟩
  · exact ⟨⟨_, rfl⟩, by simp [cbor_write_break]⟩
  · exact ⟨⟨_, rfl⟩, by simp [cbor_write_false]⟩
  · exact ⟨⟨_, rfl⟩, by simp [cbor_write_true]⟩
  · exact ⟨⟨_, rfl⟩, by simp [cbor_write_null]⟩
  · exact ⟨⟨_, rfl⟩, by simp [cbor_write_undefined]⟩

/-- C3: the generator's writers use the canonical minimal header: the
smallest of the immediate/1/2/4/8-byte forms that can represent the
magnitude, never a larger one, for unsigned integers, negative integers
and the length prefixes of strings, arrays and maps; in particular 23
encodes as the one-byte immediate form 0x17, 24 as 0x18 0x18, and 1000 as
the two-byte form 0x19 0x03 0xE8. -/
theorem cbor_canonical_minimality :
    (∀ n w : Nat,
      ((w = 0 ∧ n ≤ 23) ∨ (w = 1 ∧ n ≤ 255) ∨ (w = 2 ∧ n ≤ 65535) ∨
        (w = 4 ∧ n ≤ 4294967295) ∨ (w = 8 ∧ n ≤ 18446744073709551615)) →
      headerWidth n ≤ w) ∧
    (∀ n, (cbor_write_uint cbor_generator_create n).2.data = cborTypeHeader 0 n ∧
      (cborTypeHeader 0 n).length = 1 + headerWidth n) ∧
    (∀ i : Int, i < 0 →
      (cbor_write_negint cbor_generator_create i).2.data
        = cborTypeHeader 1 (-(i + 1)).toNat) ∧
    (∀ (bs : List Nat) (len : Int), 0 ≤ len →
      (cbor_write_byte_string cbor_generator_create bs len).2.data
        = cborTypeHeader 2 len.toNat ++ bs.take len.toNat) ∧
    (∀ (bs : List Nat) (len : Int), 0 ≤ len →
      (cbor_write_text_string cbor_generator_create bs len).2.data
        = cborTypeHeader 3 len.toNat ++ bs.take len.toNat) ∧
    (∀ sz : Int, 0 ≤ sz →
      (cbor_write_array cbor_generator_create sz).2.data = cborTypeHeader 4 sz.toNat) ∧
    (∀ sz : Int, 0 ≤ sz →
      (cbor_write_map cbor_generator_create sz).2.data = cborTypeHeader 5 sz.toNat) ∧
    (cbor_write_uint cbor_generator_create 23).2.data = [23] ∧
    (cbor_write_uint cbor_generator_create 24).2.data = [24, 24] ∧
    (cbor_write_uint cbor_generator_create 1000).2.data = [25, 3, 232] := by
  refine ⟨?_, ?_, ?_, ?_, ?_, ?_, ?_, ?_, ?_, ?_⟩
  · intro n w h
    simp only [headerWidth]
    split_ifs <;> omega
  · intro n
    exact ⟨by simp [cbor_write_uint, cbor_generator_create], cborTypeHeader_length 0 n⟩
  · intro i hi
    simp [cbor_write_negint, hi, cbor_generator_create]
  · intro bs len hlen
    unfold cbor_write_byte_string
    rw [if_neg (by omega), if_neg (by omega)]
    simp [cbor_generator_create]
  · intro bs len hlen
    unfold cbor_write_text_string
    rw [if_neg (by omega), if_neg (by omega)]
    simp [cbor_generator_create]
  · intro sz hsz
    unfold cbor_write_array
    rw [if_neg (by omega), if_neg (by omega)]
    simp [cbor_generator_create]
  · intro sz hsz
    unfold cbor_write_map
    rw [if_neg (by omega), if_neg (by omega)]
    simp [cbor_generator_create]
  · decide
  · decide
  · decide

/-- Witness for C3 at concrete inputs: the two-byte form is minimal for
1000, a negative integer emits the canonical header, and a byte string's
length prefix is the canonical header for its length. -/
theorem cbor_canonical_minimality_witness :
    headerWidth 1000 ≤ 2 ∧
    (cbor_write_negint cbor_generator_create (-5)).2.data
      = cborTypeHeader 1 (-((-5 : Int) + 1)).toNat ∧
    (cbor_write_byte_string cbor_generator_create [7] 1).2.data
      = cborTypeHeader 2 (1 : Int).toNat ++ ([7] : List Nat).take (1 : Int).toNat := by
  refine ⟨?_, ?_, ?_⟩
  · exact cbor_canonical_minimality.1 1000 2 (by omega)
  · exact cbor_canonical_minimality.2.2.1 (-5) (by omega)
  · exact cbor_canonical_minimality.2.2.2.1 [7] 1 (by omega)

theorem next_val_first (buf : List Nat) (v : CBOR_VAL_T) (k : Nat) (fl : Bool)
    (hlen : 0 < buf.length)
    (hd : decodeTokenAt buf 0 false = some (v, k, fl)) :
    (cbor_next_val (cbor_parser_create buf)).1 = CBOR_NEXT_RESULT.val v := by
  unfold cbor_next_val cbor_parser_create
  dsimp only
  rw [if_pos hlen, hd]

theorem roundtrip_uint_token (n : Nat) (hn : n < 2 ^ 64) :
    ∃ ib, (cbor_next_val (cbor_parser_create
        (cbor_write_uint cbor_generator_create n).2.data)).1
      = CBOR_NEXT_RESULT.val ⟨ib, .CBOR_TYPE_UNSIGNED_INT, .as_uint n, 0⟩ := by
  have hd := decodeTokenAt_uint n [] false hn
  rw [List.append_nil] at hd
  have hbuf : (cbor_write_uint cbor_generator_create n).2.data = cborTypeHeader 0 n := by
    simp [cbor_write_uint, cbor_generator_create]
  rw [hbuf]
  exact ⟨aiOfArg n, next_val_first _ _ _ _ (by rw [cborTypeHeader_length]; omega) hd⟩

theorem roundtrip_negint_token (i : Int) (h1 : -(2 ^ 63) ≤ i) (h2 : i < 0) :
    ∃ ib, (cbor_next_val (cbor_parser_create
        (cbor_write_negint cbor_generator_create i).2.data)).1
      = CBOR_NEXT_RESULT.val ⟨ib, .CBOR_TYPE_NEGATIVE_INT, .as_negint i, 0⟩ := by
  have hmlt : (-(i + 1)).toNat < 2 ^ 64 := by omega
  have hd := decodeTokenAt_negint (-(i + 1)).toNat [] false hmlt
  rw [List.append_nil] at hd
  have hval : (-1 - ((-(i + 1)).toNat : Int)) = i := by omega
  rw [hval] at hd
  have hbuf : (cbor_write_negint cbor_generator_create i).2.data
      = cborTypeHeader 1 (-(i + 1)).toNat := by
    unfold cbor_write_negint
    rw [if_pos h2]
    simp [cbor_generator_create]
  rw [hbuf]
  exact ⟨32 + aiOfArg (-(i + 1)).toNat,
    next_val_first _ _ _ _ (by rw [cborTypeHeader_length]; omega) hd⟩

theorem roundtrip_byte_string_token (bs : List Nat) (hb : bs.length < 2 ^ 64) :
    ∃ ib, (cbor_next_val (cbor_parser_create
        (cbor_write_byte_string cbor_generator_create bs (bs.length : Int)).2.data)).1
      = CBOR_NEXT_RESULT.val ⟨ib, .CBOR_TYPE_BYTE_STRING, .as_bytes bs, (bs.length : Int)⟩ := by
  have hd := decodeTokenAt_byte_string bs [] false hb
  rw [List.append_nil] at hd
  have hbuf : (cbor_write_byte_string cbor_generator_create bs (bs.length : Int)).2.data
      = cborTypeHeader 2 bs.length ++ bs := by
    unfold cbor_write_byte_string
    rw [if_neg (by omega), if_neg (by omega)]
    simp [cbor_generator_create]
  rw [hbuf]
  exact ⟨64 + aiOfArg bs.length,
    next_val_first _ _ _ _ (by simp [cborTypeHeader]) hd⟩

theorem roundtrip_text_string_token (bs : List Nat) (hb : bs.length < 2 ^ 64) :
    ∃ ib, (cbor_next_val (cbor_parser_create
        (cbor_write_text_string cbor_generator_create bs (bs.length : Int)).2.data)).1
      = CBOR_NEXT_RESULT.val ⟨ib, .CBOR_TYPE_TEXT_STRING, .as_bytes bs, (bs.length : Int)⟩ := by
  have hd := decodeTokenAt_text_string bs [] false hb
  rw [List.append_nil] at hd
  have hbuf : (cbor_write_text_string cbor_generator_create bs (bs.length : Int)).2.data
      = cborTypeHeader 3 bs.length ++ bs := by
    unfold cbor_write_text_string
    rw [if_neg (by omega), if_neg (by omega)]
    simp [cbor_generator_create]
  rw [hbuf]
  exact ⟨96 + aiOfArg bs.length,
    next_val_first _ _ _ _ (by simp [cborTypeHeader]) hd⟩

theorem roundtrip_array_token (sz : Int) (h0 : 0 ≤ sz) (h64 : sz < 2 ^ 64) :
    ∃ ib, (cbor_next_val (cbor_parser_create
        (cbor_write_array cbor_generator_create sz).2.data)).1
      = CBOR_NEXT_RESULT.val ⟨ib, .CBOR_TYPE_ARRAY, .unset, sz⟩ := by
  have hmlt : sz.toNat < 2 ^ 64 := by omega
  have hd := decodeTokenAt_array sz.toNat [] false hmlt
  rw [List.append_nil] at hd
  have hsz : ((sz.toNat : Nat) : Int) = sz := Int.toNat_of_nonneg h0
  rw [hsz] at hd
  have hbuf : (cbor_write_array cbor_generator_create sz).2.data
      = cborTypeHeader 4 sz.toNat := by
    unfold cbor_write_array
    rw [if_neg (by omega), if_neg (by omega)]
    simp [cbor_generator_create]
  rw [hbuf]
  exact ⟨128 + aiOfArg sz.toNat,
    next_val_first _ _ _ _ (by rw [cborTypeHeader_length]; omega) hd⟩

theorem roundtrip_map_token (sz : Int) (h0 : 0 ≤ sz) (h64 : sz < 2 ^ 64) :
    ∃ ib, (cbor_next_val (cbor_parser_create
        (cbor_write_map cbor_generator_create sz).2.data)).1
      = CBOR_NEXT_RESULT.val ⟨ib, .CBOR_TYPE_MAP, .unset, sz⟩ := by
  have hmlt : sz.toNat < 2 ^ 64 := by omega
  have hd := decodeTokenAt_map sz.toNat [] false hmlt
  rw [List.append_nil] at hd
  have hsz : ((sz.toNat : Nat) : Int) = sz := Int.toNat_of_nonneg h0
  rw [hsz] at hd
  have hbuf : (cbor_write_map cbor_generator_create sz).2.data
      = cborTypeHeader 5 sz.toNat := by
    unfold cbor_write_map
    rw [if_neg (by omega), if_neg (by omega)]
    simp [cbor_generator_create]
  rw [hbuf]
  exact ⟨160 + aiOfArg sz.toNat,
    next_val_first _ _ _ _ (by rw [cborTypeHeader_length]; omega) hd⟩

theorem roundtrip_float_token (b : Nat) (hb : b < 2 ^ 64) :
    ∃ ib, (cbor_next_val (cbor_parser_create
        (cbor_write_float cbor_generator_create b).2.data)).1
      = CBOR_NEXT_RESULT.val ⟨ib, .CBOR_TYPE_FLOAT, .as_float b, 0⟩ := by
  unfold cbor_write_float
  cases h16 : firstInv widen16to64 65536 b with
  | some h =>
    obtain ⟨hwid, hlt⟩ := firstInv_spec widen16to64 65536 b h h16
    have hd := decodeTokenAt_float16 h [] false hlt
    rw [List.append_nil, hwid] at hd
    exact ⟨249, next_val_first _ _ _ _ (by simp) hd⟩
  | none =>
    cases h32 : firstInv widen32to64 4294967296 b with
    | some f =>
      obtain ⟨hwid, hlt⟩ := firstInv_spec widen32to64 4294967296 b f h32
      have hd := decodeTokenAt_float32 f [] false hlt
      rw [List.append_nil, hwid] at hd
      exact ⟨250, next_val_first _ _ _ _ (by simp) hd⟩
    | none =>
      have hd := decodeTokenAt_float64 b [] false (by omega)
      rw [List.append_nil] at hd
      exact ⟨251, next_val_first _ _ _ _ (by simp) hd⟩

/-- The CBOR major-type kinds for which `cbor.h` declares a generator
write function: `cbor_write_uint`, `cbor_write_negint`,
`cbor_write_byte_string`, `cbor_write_text_string`, `cbor_write_array`,
`cbor_write_map`, and for major type 7 `cbor_write_float`,
`cbor_write_break`, `cbor_write_false`, `cbor_write_true`,
`cbor_write_null` and `cbor_write_undefined`.  The header declares no
write function for a semantic tag (major type 6); tags are parse-only. -/
def cborWriterKinds : List CBOR_TYPE_T :=
  [.CBOR_TYPE_UNSIGNED_INT, .CBOR_TYPE_NEGATIVE_INT, .CBOR_TYPE_BYTE_STRING,
   .CBOR_TYPE_TEXT_STRING, .CBOR_TYPE_ARRAY, .CBOR_TYPE_MAP, .CBOR_TYPE_FLOAT]

/-- C2 counterexample: the claim's list of round-tripped kinds includes the
semantic tag, but no `cbor_write_*` call for semantic tags exists in
`cbor.h` (`cborWriterKinds` enumerates the kinds covered by the declared
writers), so "the bytes produced by the corresponding `cbor_write_*` call"
is undefined for the semantic-tag kind. -/
theorem cbor_roundtrip_no_tag_writer :
    CBOR_TYPE_T.CBOR_TYPE_SEMANTIC_TAG ∉ cborWriterKinds := by
  decide

/-- C2 (amended): for every representable value of every CBOR kind that
has a generator write function - unsigned int (below 2^64), negative int
(int64 range), byte string, text string, array and map counts, float
(any binary64 bit pattern), and the simple values false/true/null/
undefined - decoding the bytes produced by the corresponding
`cbor_write_*` call with `cbor_next_val` yields a token carrying exactly
that value. -/
theorem cbor_encode_decode_roundtrip :
    (∀ n : Nat, n < 2 ^ 64 →
      ∃ ib, (cbor_next_val (cbor_parser_create
          (cbor_write_uint cbor_generator_create n).2.data)).1
        = CBOR_NEXT_RESULT.val ⟨ib, .CBOR_TYPE_UNSIGNED_INT, .as_uint n, 0⟩) ∧
    (∀ i : Int, -(2 ^ 63) ≤ i → i < 0 →
      ∃ ib, (cbor_next_val (cbor_parser_create
          (cbor_write_negint cbor_generator_create i).2.data)).1
        = CBOR_NEXT_RESULT.val ⟨ib, .CBOR_TYPE_NEGATIVE_INT, .as_negint i, 0⟩) ∧
    (∀ bs : List Nat, bs.length < 2 ^ 64 →
      ∃ ib, (cbor_next_val (cbor_parser_create
          (cbor_write_byte_string cbor_generator_create bs (bs.length : Int)).2.data)).1
        = CBOR_NEXT_RESULT.val ⟨ib, .CBOR_TYPE_BYTE_STRING, .as_bytes bs, (bs.length : Int)⟩) ∧
    (∀ bs : List Nat, bs.length < 2 ^ 64 →
      ∃ ib, (cbor_next_val (cbor_parser_create
          (cbor_write_text_string cbor_generator_create bs (bs.length : Int)).2.data)).1
        = CBOR_NEXT_RESULT.val ⟨ib, .CBOR_TYPE_TEXT_STRING, .as_bytes bs, (bs.length : Int)⟩) ∧
    (∀ sz : Int, 0 ≤ sz → sz < 2 ^ 64 →
      ∃ ib, (cbor_next_val (cbor_parser_create
          (cbor_write_array cbor_generator_create sz).2.data)).1
        = CBOR_NEXT_RESULT.val ⟨ib, .CBOR_TYPE_ARRAY, .unset, sz⟩) ∧
    (∀ sz : Int, 0 ≤ sz → sz < 2 ^ 64 →
      ∃ ib, (cbor_next_val (cbor_parser_create
          (cbor_write_map cbor_generator_create sz).2.data)).1
        = CBOR_NEXT_RESULT.val ⟨ib, .CBOR_TYPE_MAP, .unset, sz⟩) ∧
    (∀ b : Nat, b < 2 ^ 64 →
      ∃ ib, (cbor_next_val (cbor_parser_create
          (cbor_write_float cbor_generator_create b).2.data)).1
        = CBOR_NEXT_RESULT.val ⟨ib, .CBOR_TYPE_FLOAT, .as_float b, 0⟩) ∧
    ((cbor_next_val (cbor_parser_create
        (cbor_write_false cbor_generator_create).2.data)).1
      = CBOR_NEXT_RESULT.val ⟨244, .CBOR_TYPE_FLOAT, .unset, 0⟩) ∧
    ((cbor_next_val (cbor_parser_create
        (cbor_write_true cbor_generator_create).2.data)).1
      = CBOR_NEXT_RESULT.val ⟨245, .CBOR_TYPE_FLOAT, .unset, 0⟩) ∧
    ((cbor_next_val (cbor_parser_create
        (cbor_write_null cbor_generator_create).2.data)).1
      = CBOR_NEXT_RESULT.val ⟨246, .CBOR_TYPE_FLOAT, .unset, 0⟩) ∧
    ((cbor_next_val (cbor_parser_create
        (cbor_write_undefined cbor_generator_create).2.data)).1
      = CBOR_NEXT_RESULT.val ⟨247, .CBOR_TYPE_FLOAT, .unset, 0⟩) :=
  ⟨roundtrip_uint_token, roundtrip_negint_token, roundtrip_byte_string_token,
   roundtrip_text_string_token, roundtrip_array_token, roundtrip_map_token,
   roundtrip_float_token, by decide, by decide, by decide, by decide⟩

/-- Witness for C2 at concrete inputs: the round trip through the
generator and parser for the unsigned integer 1000, the negative integer
-5, the byte string [1, 2], the array count 3 and the float bit pattern 0. -/
theorem cbor_encode_decode_roundtrip_witness :
    (∃ ib, (cbor_next_val (cbor_parser_create
        (cbor_write_uint cbor_generator_create 1000).2.data)).1
      = CBOR_NEXT_RESULT.val ⟨ib, .CBOR_TYPE_UNSIGNED_INT, .as_uint 1000, 0⟩) ∧
    (∃ ib, (cbor_next_val (cbor_parser_create
        (cbor_write_negint cbor_generator_create (-5)).2.data)).1
      = CBOR_NEXT_RESULT.val ⟨ib, .CBOR_TYPE_NEGATIVE_INT, .as_negint (-5), 0⟩) ∧
    (∃ ib, (cbor_next_val (cbor_parser_create
        (cbor_write_byte_string cbor_generator_create [1, 2]
          (([1, 2] : List Nat).length : Int)).2.data)).1
      = CBOR_NEXT_RESULT.val ⟨ib, .CBOR_TYPE_BYTE_STRING, .as_bytes [1, 2],
          (([1, 2] : List Nat).length : Int)⟩) ∧
    (∃ ib, (cbor_next_val (cbor_parser_create
        (cbor_write_array cbor_generator_create 3).2.data)).1
      = CBOR_NEXT_RESULT.val ⟨ib, .CBOR_TYPE_ARRAY, .unset, 3⟩) ∧
    (∃ ib, (cbor_next_val (cbor_parser_create
        (cbor_write_float cbor_generator_create 0).2.data)).1
      = CBOR_NEXT_RESULT.val ⟨ib, .CBOR_TYPE_FLOAT, .as_float 0, 0⟩) :=
  ⟨cbor_encode_decode_roundtrip.1 1000 (by norm_num),
   cbor_encode_decode_roundtrip.2.1 (-5) (by norm_num) (by norm_num),
   cbor_encode_decode_roundtrip.2.2.1 [1, 2] (by norm_num),
   cbor_encode_decode_roundtrip.2.2.2.2.1 3 (by norm_num) (by norm_num),
   cbor_encode_decode_roundtrip.2.2.2.2.2.2.1 0 (by norm_num)⟩

/-- Modelled from the spec: one instruction of the delta engine's edit
script (the delta wire format of `diff.c` is not under `src/` and is
documented as opaque, with the representation an implementation freedom):
copy a range of the old value, or insert literal bytes. -/
inductive DELTA_OP_T where
  | copy (off len : Nat)
  | insert (bytes : List Nat)
  deriving DecidableEq, Repr

/-- Modelled from the spec: `diff_apply_binary` of the delta engine (not
under `src/`).  Applies the edit script to the old value: a copy takes
`len` bytes of the old value at `off` (a range outside the old value is a
structurally invalid delta and fails), an insert contributes its literal
bytes.  The C function returns `NULL` on failure; the model returns
`none`. -/
def diff_apply_binary (old_value : List Nat) : List DELTA_OP_T → Option (List Nat)
  | [] => some []
  | DELTA_OP_T.copy off len :: rest =>
    if off + len ≤ old_value.length then
      (diff_apply_binary old_value rest).map (fun t => (old_value.drop off).take len ++ t)
    else none
  | DELTA_OP_T.insert bs :: rest =>
    (diff_apply_binary old_value rest).map (fun t => bs ++ t)

/-- Length of the longest common prefix of two byte lists. -/
def commonPrefixLen : List Nat → List Nat → Nat
  | a :: as, b :: bs => if a = b then commonPrefixLen as bs + 1 else 0
  | _, _ => 0

/-- Length of the longest common suffix of two byte lists. -/
def commonSuffixLen (a b : List Nat) : Nat :=
  commonPrefixLen a.reverse b.reverse

/-- Mirrors `DIFF_DEFAULT_MAX_STORAGE` in `delta.h`: `INT_MAX`, i.e. an
effectively unbounded amount of working storage. -/
def DIFF_DEFAULT_MAX_STORAGE : Int := 2147483647

/-- Mirrors `DIFF_DEFAULT_BAILOUT_FACTOR` in `delta.h`. -/
def DIFF_DEFAULT_BAILOUT_FACTOR : Int := 10000

/-- Modelled from the spec: `diff_generate_binary_ex` of the delta engine
(not under `src/`).  Identical inputs yield no delta; an error (modelled
as non-positive resource limits) also yields `none`, matching the
header's "If there are no differences or an error occurs, then NULL is
returned".  When the estimated alignment work exceeds the
`bailout_factor`-scaled multiple of the minimal work, or the inputs
exceed `max_storage`, the search is abandoned and the coarsest correct
script (replace everything) is emitted; otherwise the script copies the
longest common prefix, inserts the differing middle of the new value and
copies the longest common suffix. -/
def diff_generate_binary_ex (old_value new_value : List Nat)
    (max_storage bailout_factor : Int) : Option (List DELTA_OP_T) :=
  if old_value = new_value then none
  else if max_storage ≤ 0 ∨ bailout_factor ≤ 0 then none
  else if bailout_factor * ((old_value.length : Int) + (new_value.length : Int))
        < (old_value.length : Int) * (new_value.length : Int)
      ∨ max_storage < (old_value.length : Int) then
    some [DELTA_OP_T.insert new_value]
  else
    let p := commonPrefixLen old_value new_value
    let q := commonSuffixLen (old_value.drop p) (new_value.drop p)
    some [DELTA_OP_T.copy 0 p,
      DELTA_OP_T.insert ((new_value.drop p).take (new_value.length - p - q)),
      DELTA_OP_T.copy (old_value.length - q) q]

/-- Mirrors the contract of `diff_generate_binary` in `delta.h`: delta
generation with the default resource limits (`DIFF_DEFAULT_MAX_STORAGE`,
`DIFF_DEFAULT_BAILOUT_FACTOR`). -/
def diff_generate_binary (old_value new_value : List Nat) : Option (List DELTA_OP_T) :=
  diff_generate_binary_ex old_value new_value
    DIFF_DEFAULT_MAX_STORAGE DIFF_DEFAULT_BAILOUT_FACTOR

theorem commonPrefixLen_le_left : ∀ a b : List Nat, commonPrefixLen a b ≤ a.length := by
  intro a
  induction a with
  | nil => intro b; cases b <;> simp [commonPrefixLen]
  | cons x as ih =>
    intro b
    cases b with
    | nil => simp [commonPrefixLen]
    | cons y bs =>
      unfold commonPrefixLen
      split
      · have := ih bs
        simp
        omega
      · simp

theorem commonPrefixLen_le_right : ∀ a b : List Nat, commonPrefixLen a b ≤ b.length := by
  intro a
  induction a with
  | nil => intro b; cases b <;> simp [commonPrefixLen]
  | cons x as ih =>
    intro b
    cases b with
    | nil => simp [commonPrefixLen]
    | cons y bs =>
      unfold commonPrefixLen
      split
      · have := ih bs
        simp
        omega
      · simp

theorem commonPrefixLen_take : ∀ a b : List Nat,
    a.take (commonPrefixLen a b) = b.take (commonPrefixLen a b) := by
  intro a
  induction a with
  | nil => intro b; cases b <;> simp [commonPrefixLen]
  | cons x as ih =>
    intro b
    cases b with
    | nil => simp [commonPrefixLen]
    | cons y bs =>
      unfold commonPrefixLen
      split
      · rename_i hxy
        simp [hxy, ih bs]
      · simp

theorem commonSuffixLen_le_left (a b : List Nat) : commonSuffixLen a b ≤ a.length := by
  have := commonPrefixLen_le_left a.reverse b.reverse
  simpa [commonSuffixLen] using this

theorem commonSuffixLen_le_right (a b : List Nat) : commonSuffixLen a b ≤ b.length := by
  have := commonPrefixLen_le_right a.reverse b.reverse
  simpa [commonSuffixLen] using this

theorem commonSuffixLen_drop (a b : List Nat) :
    a.drop (a.length - commonSuffixLen a b) = b.drop (b.length - commonSuffixLen a b) := by
  have hq := commonPrefixLen_take a.reverse b.reverse
  have h1 := commonSuffixLen_le_left a b
  have h2 := commonSuffixLen_le_right a b
  have ha : a.reverse.take (commonSuffixLen a b)
      = (a.drop (a.length - commonSuffixLen a b)).reverse := by
    rw [List.reverse_drop]
    congr 1
    omega
  have hb : b.reverse.take (commonSuffixLen a b)
      = (b.drop (b.length - commonSuffixLen a b)).reverse := by
    rw [List.reverse_drop]
    congr 1
    omega
  have : (a.drop (a.length - commonSuffixLen a b)).reverse
      = (b.drop (b.length - commonSuffixLen a b)).reverse := by
    rw [← ha, ← hb]
    exact hq
  exact List.reverse_injective this

/-- C1: whenever `diff_generate_binary_ex` produces a delta - for any pair
of byte buffers and any resource limits, including runs that bail out to
the coarse replace-everything script - `diff_apply_binary` applied to the
old value and that delta reconstructs the new value exactly, byte for
byte. -/
theorem diff_generate_apply_roundtrip (old_value new_value : List Nat) (M B : Int)
    (d : List DELTA_OP_T)
    (h : diff_generate_binary_ex old_value new_value M B = some d) :
    diff_apply_binary old_value d = some new_value := by
  simp only [diff_generate_binary_ex] at h
  split at h
  · simp at h
  · split at h
    · simp at h
    · split at h
      · cases h
        simp [diff_apply_binary]
      · cases h
        have hp1 := commonPrefixLen_le_left old_value new_value
        have hp2 := commonPrefixLen_le_right old_value new_value
        have htake := commonPrefixLen_take old_value new_value
        have hq1 : commonSuffixLen (old_value.drop (commonPrefixLen old_value new_value))
            (new_value.drop (commonPrefixLen old_value new_value))
            ≤ old_value.length - commonPrefixLen old_value new_value := by
          have := commonSuffixLen_le_left
            (old_value.drop (commonPrefixLen old_value new_value))
            (new_value.drop (commonPrefixLen old_value new_value))
          simpa using this
        have hq2 : commonSuffixLen (old_value.drop (commonPrefixLen old_value new_value))
            (new_value.drop (commonPrefixLen old_value new_value))
            ≤ new_value.length - commonPrefixLen old_value new_value := by
          have := commonSuffixLen_le_right
            (old_value.drop (commonPrefixLen old_value new_value))
            (new_value.drop (commonPrefixLen old_value new_value))
          simpa using this
        have hdrop := commonSuffixLen_drop
          (old_value.drop (commonPrefixLen old_value new_value))
          (new_value.drop (commonPrefixLen old_value new_value))
        rw [List.drop_drop, List.drop_drop, List.length_drop, List.length_drop] at hdrop
        rw [show commonPrefixLen old_value new_value +
              (old_value.length - commonPrefixLen old_value new_value -
                commonSuffixLen (old_value.drop (commonPrefixLen old_value new_value))
                  (new_value.drop (commonPrefixLen old_value new_value)))
            = old_value.length -
                commonSuffixLen (old_value.drop (commonPrefixLen old_value new_value))
                  (new_value.drop (commonPrefixLen old_value new_value)) from by omega,
            show commonPrefixLen old_value new_value +
              (new_value.length - commonPrefixLen old_value new_value -
                commonSuffixLen (old_value.drop (commonPrefixLen old_value new_value))
                  (new_value.drop (commonPrefixLen old_value new_value)))
            = new_value.length -
                commonSuffixLen (old_value.drop (commonPrefixLen old_value new_value))
                  (new_value.drop (commonPrefixLen old_value new_value)) from by omega] at hdrop
        have hc1 : 0 + commonPrefixLen old_value new_value ≤ old_value.length := by omega
        have hc2 : old_value.length -
              commonSuffixLen (old_value.drop (commonPrefixLen old_value new_value))
                (new_value.drop (commonPrefixLen old_value new_value)) +
              commonSuffixLen (old_value.drop (commonPrefixLen old_value new_value))
                (new_value.drop (commonPrefixLen old_value new_value))
            ≤ old_value.length := by omega
        simp only [diff_apply_binary, if_pos hc1, if_pos hc2, Option.map_some',
          List.append_nil, List.drop_zero]
        have hsuf : (old_value.drop (old_value.length -
              commonSuffixLen (old_value.drop (commonPrefixLen old_value new_value))
                (new_value.drop (commonPrefixLen old_value new_value)))).take
              (commonSuffixLen (old_value.drop (commonPrefixLen old_value new_value))
                (new_value.drop (commonPrefixLen old_value new_value)))
            = old_value.drop (old_value.length -
              commonSuffixLen (old_value.drop (commonPrefixLen old_value new_value))
                (new_value.drop (commonPrefixLen old_value new_value))) := by
          apply List.take_of_length_le
          simp
          omega
        rw [hsuf, htake, hdrop]
        have hmid : (new_value.drop (commonPrefixLen old_value new_value)).drop
              (new_value.length - commonPrefixLen old_value new_value -
                commonSuffixLen (old_value.drop (commonPrefixLen old_value new_value))
                  (new_value.drop (commonPrefixLen old_value new_value)))
            = new_value.drop (new_value.length -
                commonSuffixLen (old_value.drop (commonPrefixLen old_value new_value))
                  (new_value.drop (commonPrefixLen old_value new_value))) := by
          rw [List.drop_drop]
          congr 1
          omega
        rw [← hmid, List.take_append_drop, List.take_append_drop]

/-- Witness for C1 at a concrete input: for old = "ABCDEFG" and new =
"ABCXEFG" (one byte changed) the generated delta applies back to exactly
the new value. -/
theorem diff_generate_apply_roundtrip_witness :
    diff_apply_binary [65, 66, 67, 68, 69, 70, 71]
      [DELTA_OP_T.copy 0 3, DELTA_OP_T.insert [88], DELTA_OP_T.copy 4 3]
      = some [65, 66, 67, 88, 69, 70, 71] :=
  diff_generate_apply_roundtrip [65, 66, 67, 68, 69, 70, 71]
    [65, 66, 67, 88, 69, 70, 71] 100 10000
    [DELTA_OP_T.copy 0 3, DELTA_OP_T.insert [88], DELTA_OP_T.copy 4 3] (by decide)

/-- C5: generating a delta from a buffer to an identical buffer yields no
delta, both through `diff_generate_binary` and through
`diff_generate_binary_ex` with any limits. -/
theorem diff_generate_identity (old_value : List Nat) (M B : Int) :
    diff_generate_binary old_value old_value = none ∧
    diff_generate_binary_ex old_value old_value M B = none := by
  unfold diff_generate_binary diff_generate_binary_ex
  simp

/-- C8: `diff_generate_binary` is `diff_generate_binary_ex` at the default
limits `DIFF_DEFAULT_MAX_STORAGE` (INT_MAX) and
`DIFF_DEFAULT_BAILOUT_FACTOR` (10000). -/
theorem diff_generate_binary_default (old_value new_value : List Nat) :
    diff_generate_binary old_value new_value
      = diff_generate_binary_ex old_value new_value
          DIFF_DEFAULT_MAX_STORAGE DIFF_DEFAULT_BAILOUT_FACTOR := rfl

/-- C10: a `NULL` (`none`) result of delta generation arises both from
identical inputs (nothing to send) and from an error during generation
(here invalid resource limits), so a `none` result alone does not tell the
caller which happened: both of the following generations return `none`,
though only the first has identical inputs. -/
theorem diff_generate_null_conflation :
    diff_generate_binary_ex [0] [0] 100 100 = none ∧
    diff_generate_binary_ex [0] [1] (-1) 100 = none ∧
    (([0] : List Nat) == [1]) = false ∧
    diff_generate_binary [0] [0] = none := by
  refine ⟨by decide, by decide, by decide, ?_⟩
  unfold diff_generate_binary diff_generate_binary_ex
  simp

/-- Modelled from the spec: the per-session update-value cache behind
`update_cache_get_value` / `update_cache_remove_values` /
`update_cache_clear_values` in `delta.h` (the implementation is not under
`src/`).  An entry maps a (session identity, topic path) key to the last
byte buffer successfully sent for that path.  A `SESSION_T` (declared in
`session.h`) enters the cache key only through its identity, modelled as
a numeric session id; the C code keeps this state inside the session, the
model passes it explicitly. -/
structure UPDATE_VALUE_CACHE_T where
  entries : List ((Nat × String) × List Nat)
  deriving DecidableEq, Repr

/-- The cache before any successful send: no entries. -/
def update_cache_empty : UPDATE_VALUE_CACHE_T := ⟨[]⟩

/-- Modelled from the spec: the internal put invoked by the send path on
every successful send; it replaces any previous entry for the same
(session, path) key, keeping at most one entry per key. -/
def update_cache_put_value (c : UPDATE_VALUE_CACHE_T) (session : Nat)
    (topic_path : String) (value : List Nat) : UPDATE_VALUE_CACHE_T :=
  ⟨((session, topic_path), value) ::
    c.entries.filter (fun e => decide (¬ e.1 = (session, topic_path)))⟩

/-- Mirrors the contract of `update_cache_get_value` in `delta.h`: the
cached value for the path, or `none` if no value has been sent or the
value has been removed from the cache. -/
def update_cache_get_value (c : UPDATE_VALUE_CACHE_T) (session : Nat)
    (topic_path : String) : Option (List Nat) :=
  (c.entries.find? (fun e => decide (e.1 = (session, topic_path)))).map (fun e => e.2)

/-- Modelled from the spec: the topic-selector matcher (`selector_match`
in `selector.h`, an external collaborator owning the wildcard/path-prefix
semantics; its implementation is not under `src/`): a selector ending in
"/*" matches every path extending the prefix before the star, any other
selector matches exactly its own path. -/
def selector_matches (topic_selector topic_path : String) : Bool :=
  match topic_selector.data.reverse with
  | '*' :: '/' :: rev => (('/' :: rev).reverse).isPrefixOf topic_path.data
  | _ => topic_selector == topic_path

/-- Mirrors the contract of `update_cache_remove_values` in `delta.h`:
removes every cached entry of the session whose path matches the
selector. -/
def update_cache_remove_values (c : UPDATE_VALUE_CACHE_T) (session : Nat)
    (topic_selector : String) : UPDATE_VALUE_CACHE_T :=
  ⟨c.entries.filter
    (fun e => !(decide (e.1.1 = session) && selector_matches topic_selector e.1.2))⟩

/-- Mirrors the contract of `update_cache_clear_values` in `delta.h`:
removes every cached entry of the session. -/
def update_cache_clear_values (c : UPDATE_VALUE_CACHE_T) (session : Nat) :
    UPDATE_VALUE_CACHE_T :=
  ⟨c.entries.filter (fun e => !(decide (e.1.1 = session)))⟩

/-- The cache invariant: at most one entry per (session, path) key. -/
def cache_well_formed (c : UPDATE_VALUE_CACHE_T) : Prop :=
  (c.entries.map (fun e => e.1)).Nodup

/-- C4: after a successful send caches a value for (session, path), the
lookup returns exactly that value; after removal with a selector matching
the path, the lookup returns `none`; the at-most-one-entry-per-key
invariant is preserved by put and remove; and before the first successful
send for a path no entry exists. -/
theorem update_cache_spec :
    (∀ c s p v, update_cache_get_value (update_cache_put_value c s p v) s p = some v) ∧
    (∀ c s p sel, selector_matches sel p = true →
      update_cache_get_value (update_cache_remove_values c s sel) s p = none) ∧
    (∀ c s p v, cache_well_formed c → cache_well_formed (update_cache_put_value c s p v)) ∧
    (∀ c s sel, cache_well_formed c →
      cache_well_formed (update_cache_remove_values c s sel)) ∧
    (∀ s p, update_cache_get_value update_cache_empty s p = none) := by
  refine ⟨?_, ?_, ?_, ?_, ?_⟩
  · intro c s p v
    unfold update_cache_get_value update_cache_put_value
    rw [List.find?_cons_of_pos _ (by simp)]
    rfl
  · intro c s p sel hmatch
    unfold update_cache_get_value update_cache_remove_values
    rw [Option.map_eq_none']
    rw [List.find?_eq_none]
    intro e he
    rw [List.mem_filter] at he
    intro habs
    simp only [decide_eq_true_eq] at habs
    have h1 : e.1.1 = s := by rw [habs]
    have h2 : e.1.2 = p := by rw [habs]
    rw [h1, h2, hmatch] at he
    simp at he
  · intro c s p v hwf
    unfold cache_well_formed at hwf ⊢
    unfold update_cache_put_value
    simp only [List.map_cons, List.nodup_cons]
    constructor
    · intro habs
      rw [List.mem_map] at habs
      obtain ⟨e, he, hkey⟩ := habs
      rw [List.mem_filter] at he
      rw [hkey] at he
      simp at he
    · exact hwf.sublist ((List.filter_sublist c.entries).map _)
  · intro c s sel hwf
    unfold cache_well_formed at hwf ⊢
    unfold update_cache_remove_values
    exact hwf.sublist ((List.filter_sublist c.entries).map _)
  · intro s p
    rfl

/-- Witness for C4 at concrete inputs: caching "v1" = [118, 49] for
session 0 at path "a/b", looking it up, removing with the selector "a/*"
and looking up again, plus the empty-cache miss and the preserved
invariant. -/
theorem update_cache_spec_witness :
    update_cache_get_value
        (update_cache_put_value update_cache_empty 0 "a/b" [118, 49]) 0 "a/b"
      = some [118, 49] ∧
    update_cache_get_value
        (update_cache_remove_values
          (update_cache_put_value update_cache_empty 0 "a/b" [118, 49]) 0 "a/*")
        0 "a/b"
      = none ∧
    cache_well_formed (update_cache_put_value update_cache_empty 0 "a/b" [118, 49]) ∧
    update_cache_get_value update_cache_empty 0 "a/b" = none :=
  ⟨update_cache_spec.1 update_cache_empty 0 "a/b" [118, 49],
   update_cache_spec.2.1 (update_cache_put_value update_cache_empty 0 "a/b" [118, 49])
     0 "a/b" "a/*" (by decide),
   update_cache_spec.2.2.1 update_cache_empty 0 "a/b" [118, 49] (by simp [cache_well_formed, update_cache_empty]),
   update_cache_spec.2.2.2.2 0 "a/b"⟩
